import Mathlib

/- Verification of the numeric core of stocks-web (src/wasm/src/lib.rs):
   the LTTB downsampler and the indicator family (SMA, EMA, RSI, VWAP).
   Every `f64` value is modelled exactly as a rational number, `usize`
   as ℕ; `f64::floor` composed with the `as usize` cast on a nonnegative
   value is `Int.floor` followed by `Int.toNat`. -/

structure DataPoint where
  ts : ℚ
  value : ℚ
deriving DecidableEq

structure PricePoint where
  ts : ℚ
  opn : ℚ
  high : ℚ
  low : ℚ
  close : ℚ
  volume : ℚ
deriving DecidableEq

structure IndicatorPoint where
  ts : ℚ
  value : ℚ
deriving DecidableEq

/-- Total indexing into a `DataPoint` series (all accesses proved in range). -/
def dnth (data : List DataPoint) (i : ℕ) : DataPoint := data.getD i ⟨0, 0⟩

/-- Total indexing into a `PricePoint` series (all accesses proved in range). -/
def pnth (data : List PricePoint) (i : ℕ) : PricePoint := data.getD i ⟨0, 0, 0, 0, 0, 0⟩

/- ------------------------------------------------------------------------
   LTTB downsampler: `lttb_downsample_impl` (lib.rs lines 52-124)
   ------------------------------------------------------------------------ -/

/-- `bucket_size = (len - 2) as f64 / (threshold - 2) as f64` (line 70). -/
def lttbBS (len threshold : ℕ) : ℚ := ((len - 2 : ℕ) : ℚ) / ((threshold - 2 : ℕ) : ℚ)

/-- `((i as f64 * bucket_size) + 1.0).floor() as usize` (lines 76, 80). -/
def bucketStart (bs : ℚ) (i : ℕ) : ℕ := (⌊(i : ℚ) * bs + 1⌋).toNat

/-- `(((i + 1) as f64 * bucket_size) + 1.0).floor().min(len as f64) as usize`
    (lines 77, 81-82); the pre-`min` expression is `bucketStart bs (i+1)`. -/
def bucketEnd (bs : ℚ) (len i : ℕ) : ℕ := min (bucketStart bs (i + 1)) len

/-- Sum of timestamps of `data[s .. s+n)` (accumulation of line 89). -/
def sumTs (data : List DataPoint) (s n : ℕ) : ℚ :=
  ((List.range' s n).map (fun j => (dnth data j).ts)).sum

/-- Sum of values of `data[s .. s+n)` (accumulation of line 90). -/
def sumVal (data : List DataPoint) (s n : ℕ) : ℚ :=
  ((List.range' s n).map (fun j => (dnth data j).value)).sum

/-- `(next_bucket_end - next_bucket_start).max(1)` (line 87). -/
def nextCount (bs : ℚ) (len i : ℕ) : ℕ :=
  max (bucketEnd bs len (i + 1) - bucketStart bs (i + 1)) 1

/-- `avg_ts` for bucket `i`: mean timestamp of the next bucket (lines 85-93). -/
def centroidTs (data : List DataPoint) (bs : ℚ) (len i : ℕ) : ℚ :=
  sumTs data (bucketStart bs (i + 1)) (min (bucketEnd bs len (i + 1)) len - bucketStart bs (i + 1)) /
    (nextCount bs len i : ℚ)

/-- `avg_val` for bucket `i`: mean value of the next bucket (lines 85-93). -/
def centroidVal (data : List DataPoint) (bs : ℚ) (len i : ℕ) : ℚ :=
  sumVal data (bucketStart bs (i + 1)) (min (bucketEnd bs len (i + 1)) len - bucketStart bs (i + 1)) /
    (nextCount bs len i : ℚ)

/-- The doubled-triangle-area magnitude computed at candidate index `j`
    (lines 106-108), with `prev` the previously selected index and
    `(aTs, aVal)` the next-bucket average point. -/
def areaAt (data : List DataPoint) (prev : ℕ) (aTs aVal : ℚ) (j : ℕ) : ℚ :=
  |((dnth data prev).ts - aTs) * ((dnth data j).value - (dnth data prev).value) -
    ((dnth data prev).ts - (dnth data j).ts) * (aVal - (dnth data prev).value)|

/-- The `max_area` / `max_idx` scan of lines 98-114: strict `>` update, so
    the first index attaining the maximum is kept. -/
def selectLoop (f : ℕ → ℚ) : List ℕ → ℚ × ℕ → ℚ × ℕ
  | [], acc => acc
  | j :: js, acc => if acc.1 < f j then selectLoop f js (f j, j) else selectLoop f js acc

/-- Index selected in bucket `i` (lines 85-117): the scan over
    `bucket_start..bucket_end.min(len)` seeded with `(-1, bucket_start)`. -/
def lttbSelect (data : List DataPoint) (bs : ℚ) (len prev i : ℕ) : ℕ :=
  (selectLoop (areaAt data prev (centroidTs data bs len i) (centroidVal data bs len i))
    (List.range' (bucketStart bs i) (min (bucketEnd bs len i) len - bucketStart bs i))
    (-1, bucketStart bs i)).2

/-- The main loop of lines 74-118 over the bucket indices, threading
    `prev_selected` and collecting the selected index of each bucket. -/
def lttbIndices (data : List DataPoint) (bs : ℚ) (len : ℕ) : List ℕ → ℕ → List ℕ
  | [], _ => []
  | i :: is, prev =>
    lttbSelect data bs len prev i :: lttbIndices data bs len is (lttbSelect data bs len prev i)

/-- `lttb_downsample_impl` (lines 52-124). -/
def lttb_downsample_impl (data : List DataPoint) (threshold : ℕ) : List DataPoint :=
  if data.length = 0 then []
  else if threshold < 3 ∨ data.length ≤ threshold then data
  else
    dnth data 0 ::
      ((lttbIndices data (lttbBS data.length threshold) data.length
          (List.range (threshold - 2)) 0).map (dnth data) ++ [dnth data (data.length - 1)])

/-- The chain of selected indices: bucket 0 is scanned with `prev_selected = 0`,
    and each bucket passes its selection on as the next anchor (line 117). -/
def selChain (data : List DataPoint) (bs : ℚ) (len : ℕ) : ℕ → ℕ
  | 0 => lttbSelect data bs len 0 0
  | k + 1 => lttbSelect data bs len (selChain data bs len k) (k + 1)

/-- Standard 2D cross-product triangle-area magnitude on `(ts, value)` pairs,
    written from the spec wording (spec section 4.1) for comparison with the
    code's `areaAt` expression. -/
def crossArea (A B C : ℚ × ℚ) : ℚ :=
  |(B.1 - A.1) * (C.2 - A.2) - (C.1 - A.1) * (B.2 - A.2)|

/-- The `(ts, value)` pair at index `j`. -/
def ptOf (data : List DataPoint) (j : ℕ) : ℚ × ℚ := ((dnth data j).ts, (dnth data j).value)

/- ------------------------------------------------------------------------
   SMA: `calc_sma_impl` (lib.rs lines 127-151)
   ------------------------------------------------------------------------ -/

/-- `data[..period].iter().map(|p| p.close).sum()` (line 135). -/
def closesSum (data : List PricePoint) (period : ℕ) : ℚ :=
  ((data.take period).map (fun p => p.close)).sum

/-- The sliding-window loop of lines 142-148: each step adds the entering
    close, subtracts the dropped close, and emits `window_sum / period`. -/
def smaLoop (data : List PricePoint) (period : ℕ) : List ℕ → ℚ → List IndicatorPoint
  | [], _ => []
  | i :: is, windowSum =>
    ⟨(pnth data i).ts,
      (windowSum + (pnth data i).close - (pnth data (i - period)).close) / (period : ℚ)⟩ ::
      smaLoop data period is (windowSum + (pnth data i).close - (pnth data (i - period)).close)

/-- `calc_sma_impl` (lines 127-151). -/
def calc_sma_impl (data : List PricePoint) (period : ℕ) : List IndicatorPoint :=
  if period = 0 ∨ data.length < period then []
  else
    ⟨(pnth data (period - 1)).ts, closesSum data period / (period : ℚ)⟩ ::
      smaLoop data period (List.range' period (data.length - period)) (closesSum data period)

/-- Spec-side incremental window sum: `wsum 0` is the sum of the first
    `period` closes; each later sum adds the newly entering close and
    subtracts the oldest dropped close. -/
def wsum (data : List PricePoint) (period : ℕ) : ℕ → ℚ
  | 0 => closesSum data period
  | k + 1 => wsum data period k + (pnth data (period + k)).close - (pnth data k).close

/- ------------------------------------------------------------------------
   EMA: `calc_ema_impl` (lib.rs lines 157-184)
   ------------------------------------------------------------------------ -/

/-- The recurrence loop of lines 174-181: `ema = close*k + prev_ema*(1-k)`. -/
def emaLoop (data : List PricePoint) (k : ℚ) : List ℕ → ℚ → List IndicatorPoint
  | [], _ => []
  | i :: is, prevEma =>
    ⟨(pnth data i).ts, (pnth data i).close * k + prevEma * (1 - k)⟩ ::
      emaLoop data k is ((pnth data i).close * k + prevEma * (1 - k))

/-- `calc_ema_impl` (lines 157-184): seeded with the SMA of the first
    `period` closes, multiplier `k = 2 / (period + 1)`. -/
def calc_ema_impl (data : List PricePoint) (period : ℕ) : List IndicatorPoint :=
  if period = 0 ∨ data.length < period then []
  else
    ⟨(pnth data (period - 1)).ts, closesSum data period / (period : ℚ)⟩ ::
      emaLoop data (2 / ((period : ℚ) + 1)) (List.range' period (data.length - period))
        (closesSum data period / (period : ℚ))

/- ------------------------------------------------------------------------
   RSI: `calc_rsi_impl` (lib.rs lines 190-256)
   ------------------------------------------------------------------------ -/

/-- The close-to-close change at bar `i` (lines 202, 230). -/
def changeAt (data : List PricePoint) (i : ℕ) : ℚ :=
  (pnth data i).close - (pnth data (i - 1)).close

/-- The seeding loop of lines 198-211: one pass over the first `period`
    transitions accumulating gains and loss magnitudes, then dividing. -/
def initAvgs (data : List PricePoint) (period : ℕ) : ℚ × ℚ :=
  let s := (List.range' 1 period).foldl
    (fun (acc : ℚ × ℚ) i =>
      if 0 < changeAt data i then (acc.1 + changeAt data i, acc.2)
      else (acc.1, acc.2 + |changeAt data i|))
    (0, 0)
  (s.1 / (period : ℚ), s.2 / (period : ℚ))

/-- The zero-division policy of lines 214-221 and 240-247, in the code's
    branch order: `avg_loss == 0` first, then `avg_gain == 0`. -/
def rsiValue (avgGain avgLoss : ℚ) : ℚ :=
  if avgLoss = 0 then 100
  else if avgGain = 0 then 0
  else 100 - 100 / (1 + avgGain / avgLoss)

/-- The Wilder-smoothing loop of lines 229-253. -/
def rsiLoop (data : List PricePoint) (period : ℕ) : List ℕ → ℚ → ℚ → List IndicatorPoint
  | [], _, _ => []
  | i :: is, avgGain, avgLoss =>
    ⟨(pnth data i).ts,
      rsiValue
        ((avgGain * ((period : ℚ) - 1) + (if 0 < changeAt data i then changeAt data i else 0)) /
          (period : ℚ))
        ((avgLoss * ((period : ℚ) - 1) + (if 0 < changeAt data i then 0 else |changeAt data i|)) /
          (period : ℚ))⟩ ::
      rsiLoop data period is
        ((avgGain * ((period : ℚ) - 1) + (if 0 < changeAt data i then changeAt data i else 0)) /
          (period : ℚ))
        ((avgLoss * ((period : ℚ) - 1) + (if 0 < changeAt data i then 0 else |changeAt data i|)) /
          (period : ℚ))

/-- `calc_rsi_impl` (lines 190-256). -/
def calc_rsi_impl (data : List PricePoint) (period : ℕ) : List IndicatorPoint :=
  if period = 0 ∨ data.length < period + 1 then []
  else
    ⟨(pnth data period).ts, rsiValue (initAvgs data period).1 (initAvgs data period).2⟩ ::
      rsiLoop data period (List.range' (period + 1) (data.length - (period + 1)))
        (initAvgs data period).1 (initAvgs data period).2

/-- Spec-side positive part of a change. -/
def gainPart (x : ℚ) : ℚ := max x 0

/-- Spec-side negative-magnitude part of a change. -/
def lossPart (x : ℚ) : ℚ := max (-x) 0

/-- Spec-side initial average gain: mean positive change over the first
    `period` transitions. -/
def initGainMean (data : List PricePoint) (period : ℕ) : ℚ :=
  ((List.range' 1 period).map (fun i => gainPart (changeAt data i))).sum / (period : ℚ)

/-- Spec-side initial average loss: mean negative change magnitude over the
    first `period` transitions. -/
def initLossMean (data : List PricePoint) (period : ℕ) : ℚ :=
  ((List.range' 1 period).map (fun i => lossPart (changeAt data i))).sum / (period : ℚ)

/-- Spec-side Wilder recurrence: `wilderAvgs k` is the pair
    `(avg_gain, avg_loss)` in force at output bar `period + k`. -/
def wilderAvgs (data : List PricePoint) (period : ℕ) : ℕ → ℚ × ℚ
  | 0 => (initGainMean data period, initLossMean data period)
  | k + 1 =>
    (((wilderAvgs data period k).1 * ((period : ℚ) - 1) +
        gainPart (changeAt data (period + k + 1))) / (period : ℚ),
     ((wilderAvgs data period k).2 * ((period : ℚ) - 1) +
        lossPart (changeAt data (period + k + 1))) / (period : ℚ))

/-- The RSI zero-division policy exactly as the spec words it (section 4.3):
    `avg_loss == 0` checked first giving 100, then `avg_gain == 0` giving 0,
    else `100 - 100/(1 + avg_gain/avg_loss)`. -/
def rsiPolicy (avgGain avgLoss : ℚ) : ℚ :=
  if avgLoss = 0 then 100
  else if avgGain = 0 then 0
  else 100 - 100 / (1 + avgGain / avgLoss)

/- ------------------------------------------------------------------------
   VWAP: `calc_vwap_impl` (lib.rs lines 262-285)
   ------------------------------------------------------------------------ -/

/-- `typical_price = (high + low + close) / 3` (line 272). -/
def tpOf (p : PricePoint) : ℚ := (p.high + p.low + p.close) / 3

/-- The accumulation loop of lines 271-282, carrying `cum_tp_vol` and
    `cum_vol`; the emitted value is `0` when the cumulative volume is zero
    (line 276), else the quotient. -/
def vwapLoop : List PricePoint → ℚ → ℚ → List IndicatorPoint
  | [], _, _ => []
  | p :: rest, cumTpVol, cumVol =>
    ⟨p.ts,
      if cumVol + p.volume = 0 then 0
      else (cumTpVol + tpOf p * p.volume) / (cumVol + p.volume)⟩ ::
      vwapLoop rest (cumTpVol + tpOf p * p.volume) (cumVol + p.volume)

/-- `calc_vwap_impl` (lines 262-285). -/
def calc_vwap_impl (data : List PricePoint) : List IndicatorPoint :=
  vwapLoop data 0 0

/-- Spec-side cumulative `typical_price * volume` over bars `0..=k`. -/
def cumTpVolAt (data : List PricePoint) (k : ℕ) : ℚ :=
  ((data.take (k + 1)).map (fun p => tpOf p * p.volume)).sum

/-- Spec-side cumulative volume over bars `0..=k`. -/
def cumVolAt (data : List PricePoint) (k : ℕ) : ℚ :=
  ((data.take (k + 1)).map (fun p => p.volume)).sum

/-- A concrete OHLCV series (first bars of the repository's own test
    fixture `sample_prices`), used to instantiate proved theorems. -/
def barsA : List PricePoint :=
  [⟨1, 10, 12, 9, 11, 100⟩, ⟨2, 11, 13, 10, 12, 150⟩, ⟨3, 12, 14, 11, 13, 200⟩,
   ⟨4, 13, 15, 12, 14, 120⟩]

/-- A concrete sample series for instantiating the downsampler theorems. -/
def ptsA : List DataPoint :=
  [⟨0, 0⟩, ⟨1, 5⟩, ⟨2, 1⟩, ⟨3, 4⟩, ⟨4, 2⟩, ⟨5, 3⟩]

/- ------------------------------------------------------------------------
   Helper lemmas
   ------------------------------------------------------------------------ -/

theorem pnth_cons_zero (p : PricePoint) (rest : List PricePoint) : pnth (p :: rest) 0 = p := rfl

theorem pnth_cons_succ (p : PricePoint) (rest : List PricePoint) (k : ℕ) :
    pnth (p :: rest) (k + 1) = pnth rest k := rfl

theorem cumVolAt_cons_zero (p : PricePoint) (rest : List PricePoint) :
    cumVolAt (p :: rest) 0 = p.volume := by
  simp [cumVolAt]

theorem cumVolAt_cons_succ (p : PricePoint) (rest : List PricePoint) (k : ℕ) :
    cumVolAt (p :: rest) (k + 1) = p.volume + cumVolAt rest k := by
  simp [cumVolAt, List.take_succ_cons]

theorem cumTpVolAt_cons_zero (p : PricePoint) (rest : List PricePoint) :
    cumTpVolAt (p :: rest) 0 = tpOf p * p.volume := by
  simp [cumTpVolAt]

theorem cumTpVolAt_cons_succ (p : PricePoint) (rest : List PricePoint) (k : ℕ) :
    cumTpVolAt (p :: rest) (k + 1) = tpOf p * p.volume + cumTpVolAt rest k := by
  simp [cumTpVolAt, List.take_succ_cons]

theorem vwapLoop_eq (data : List PricePoint) : ∀ ctv cv : ℚ,
    vwapLoop data ctv cv = (List.range data.length).map (fun k =>
      ⟨(pnth data k).ts,
        if cv + cumVolAt data k = 0 then 0
        else (ctv + cumTpVolAt data k) / (cv + cumVolAt data k)⟩) := by
  induction data with
  | nil => intro ctv cv; simp [vwapLoop]
  | cons p rest ih =>
    intro ctv cv
    have hstep : vwapLoop (p :: rest) ctv cv =
        ⟨p.ts,
          if cv + p.volume = 0 then 0
          else (ctv + tpOf p * p.volume) / (cv + p.volume)⟩ ::
          vwapLoop rest (ctv + tpOf p * p.volume) (cv + p.volume) := rfl
    rw [hstep, ih (ctv + tpOf p * p.volume) (cv + p.volume)]
    rw [List.length_cons, List.range_succ_eq_map, List.map_cons, List.map_map]
    refine congrArg₂ List.cons ?_ ?_
    · simp [pnth_cons_zero, cumVolAt_cons_zero, cumTpVolAt_cons_zero]
    · apply List.map_congr_left
      intro k _
      simp only [Function.comp_apply, pnth_cons_succ, cumVolAt_cons_succ, cumTpVolAt_cons_succ]
      rw [← add_assoc, ← add_assoc]

theorem vwapLoop_value_ts_free (f : ℚ → ℚ) (data : List PricePoint) : ∀ ctv cv : ℚ,
    (vwapLoop (data.map (fun p => ⟨f p.ts, p.opn, p.high, p.low, p.close, p.volume⟩)) ctv cv).map
        (fun q => q.value) =
      (vwapLoop data ctv cv).map (fun q => q.value) := by
  induction data with
  | nil => intro ctv cv; rfl
  | cons p rest ih =>
    intro ctv cv
    simp only [List.map_cons]
    have h1 : vwapLoop ((⟨f p.ts, p.opn, p.high, p.low, p.close, p.volume⟩ : PricePoint) ::
        rest.map (fun p => ⟨f p.ts, p.opn, p.high, p.low, p.close, p.volume⟩)) ctv cv =
        ⟨f p.ts,
          if cv + p.volume = 0 then 0
          else (ctv + tpOf p * p.volume) / (cv + p.volume)⟩ ::
          vwapLoop (rest.map (fun p => ⟨f p.ts, p.opn, p.high, p.low, p.close, p.volume⟩))
            (ctv + tpOf p * p.volume) (cv + p.volume) := rfl
    have h2 : vwapLoop (p :: rest) ctv cv =
        ⟨p.ts,
          if cv + p.volume = 0 then 0
          else (ctv + tpOf p * p.volume) / (cv + p.volume)⟩ ::
          vwapLoop rest (ctv + tpOf p * p.volume) (cv + p.volume) := rfl
    rw [h1, h2, List.map_cons, List.map_cons, ih]

/- ------------------------------------------------------------------------
   Claim theorems
   ------------------------------------------------------------------------ -/

/-- Claim C1, counterexample: on a single bar with `high = low = close = 3`
    and `volume = 0` the cumulative volume is zero, the bar's typical price
    is 3, but `calc_vwap_impl` outputs the value 0 — not the typical price
    the claim requires. -/
theorem claim_c1_counterexample :
    calc_vwap_impl [⟨0, 0, 3, 3, 3, 0⟩] = [⟨0, 0⟩] ∧
      tpOf ⟨0, 0, 3, 3, 3, 0⟩ = 3 ∧ (0 : ℚ) ≠ 3 := by
  refine ⟨?_, ?_, ?_⟩
  · norm_num [calc_vwap_impl, vwapLoop, tpOf]
  · norm_num [tpOf]
  · norm_num

/-- Claim C1 (amended): for every input bar sequence, `calc_vwap_impl`
    outputs one point per bar, timestamped at that bar; the value is
    `cum_typical_volume / cum_volume` whenever the cumulative volume
    accumulated so far is nonzero, and otherwise the value is `0` (not the
    bar's own typical price). In the exact rational model every output is a
    well-defined finite rational, never NaN or infinity. -/
theorem claim_c1 (data : List PricePoint) :
    calc_vwap_impl data = (List.range data.length).map (fun k =>
      ⟨(pnth data k).ts,
        if cumVolAt data k = 0 then 0 else cumTpVolAt data k / cumVolAt data k⟩) := by
  rw [calc_vwap_impl, vwapLoop_eq]
  simp

/-- Claim C2, counterexample: `calc_vwap_impl` takes no reset flag and no
    gap threshold. On two bars whose timestamp gap (10^9 - 1) exceeds the
    spec's default threshold of 4 hours (14400) in any time unit, the second
    output is the cumulative value 100/3, not the restarted-from-this-bar
    value 40 (the second bar's typical price). -/
theorem claim_c2_counterexample :
    calc_vwap_impl [⟨1, 0, 30, 10, 20, 100⟩, ⟨1000000000, 0, 60, 20, 40, 200⟩] =
        [⟨1, 20⟩, ⟨1000000000, 100 / 3⟩] ∧
      tpOf ⟨1000000000, 0, 60, 20, 40, 200⟩ = 40 ∧
      (4 * 3600 : ℚ) < 1000000000 - 1 ∧ (100 / 3 : ℚ) ≠ 40 := by
  refine ⟨?_, ?_, ?_, ?_⟩
  · norm_num [calc_vwap_impl, vwapLoop, tpOf]
  · norm_num [tpOf]
  · norm_num
  · norm_num

/-- Claim C2 (amended): the vwap operation exposes no day-boundary reset
    mode and no gap threshold — its only input is the bar sequence. The
    running sums are never reset: the output values do not depend on the
    bar timestamps at all (rewriting every timestamp by an arbitrary
    function leaves all output values unchanged), so accumulation always
    runs from the start of the series. -/
theorem claim_c2 (data : List PricePoint) (f : ℚ → ℚ) :
    (calc_vwap_impl (data.map (fun p => ⟨f p.ts, p.opn, p.high, p.low, p.close, p.volume⟩))).map
        (fun q => q.value) =
      (calc_vwap_impl data).map (fun q => q.value) := by
  rw [calc_vwap_impl, calc_vwap_impl, vwapLoop_value_ts_free]

theorem smaLoop_eq (data : List PricePoint) (period : ℕ) (hp : 1 ≤ period) :
    ∀ n k : ℕ,
      smaLoop data period (List.range' (period + k) n) (wsum data period k) =
        (List.range' (k + 1) n).map (fun m =>
          ⟨(pnth data (period - 1 + m)).ts, wsum data period m / (period : ℚ)⟩) := by
  intro n
  induction n with
  | zero => intro k; rfl
  | succ n ih =>
    intro k
    rw [List.range'_succ, List.range'_succ]
    have hsub : period + k - period = k := by omega
    have hidx : period - 1 + (k + 1) = period + k := by omega
    have hstep : smaLoop data period ((period + k) :: List.range' (period + k + 1) n)
        (wsum data period k) =
        ⟨(pnth data (period + k)).ts,
          (wsum data period k + (pnth data (period + k)).close -
            (pnth data (period + k - period)).close) / (period : ℚ)⟩ ::
          smaLoop data period (List.range' (period + k + 1) n)
            (wsum data period k + (pnth data (period + k)).close -
              (pnth data (period + k - period)).close) := rfl
    rw [hstep, hsub]
    have hws : wsum data period k + (pnth data (period + k)).close - (pnth data k).close =
        wsum data period (k + 1) := rfl
    rw [hws]
    have harg : period + k + 1 = period + (k + 1) := by omega
    rw [harg, ih (k + 1), List.map_cons, hidx]

theorem calc_sma_eq (data : List PricePoint) (period : ℕ) (hp : period ≠ 0)
    (hle : period ≤ data.length) :
    calc_sma_impl data period = (List.range (data.length - period + 1)).map (fun m =>
      ⟨(pnth data (period - 1 + m)).ts, wsum data period m / (period : ℚ)⟩) := by
  have hg : ¬(period = 0 ∨ data.length < period) := by omega
  rw [calc_sma_impl, if_neg hg, List.range_eq_range', List.range'_succ, List.map_cons]
  have h0 : period - 1 + 0 = period - 1 := by omega
  have hc : wsum data period 0 = closesSum data period := rfl
  rw [h0]
  refine congrArg₂ List.cons rfl ?_
  have := smaLoop_eq data period (by omega) (data.length - period) 0
  rw [Nat.add_zero] at this
  rw [← hc, this]

/-- Claim C10: `calc_sma_impl` is empty exactly when `period = 0` or
    `period > len`; otherwise it has `len - period + 1` points, the first
    point's value is the mean of the first `period` closes at the timestamp
    of bar `period - 1`, and every point `m` carries the incremental
    sliding-window sum `wsum m` (previous sum plus entering close minus
    dropped close) divided by `period`. -/
theorem claim_c10 (data : List PricePoint) (period : ℕ) :
    (calc_sma_impl data period = [] ↔ period = 0 ∨ data.length < period) ∧
      wsum data period 0 = closesSum data period ∧
      (∀ k, wsum data period (k + 1) =
        wsum data period k + (pnth data (period + k)).close - (pnth data k).close) ∧
      (period ≠ 0 → period ≤ data.length →
        calc_sma_impl data period =
            (List.range (data.length - period + 1)).map (fun m =>
              ⟨(pnth data (period - 1 + m)).ts, wsum data period m / (period : ℚ)⟩) ∧
          (calc_sma_impl data period).length = data.length - period + 1 ∧
          (calc_sma_impl data period).head? =
            some ⟨(pnth data (period - 1)).ts, closesSum data period / (period : ℚ)⟩) := by
  refine ⟨?_, rfl, fun k => rfl, fun hp hle => ?_⟩
  · by_cases hg : period = 0 ∨ data.length < period
    · rw [calc_sma_impl, if_pos hg]
      simp [hg]
    · rw [calc_sma_impl, if_neg hg]
      simp [hg]
  · have hchar := calc_sma_eq data period hp hle
    refine ⟨hchar, ?_, ?_⟩
    · rw [hchar, List.length_map, List.length_range]
    · rw [calc_sma_impl, if_neg (by omega)]
      rfl

/-- Witness for claim C10 at a concrete series and period. -/
theorem claim_c10_witness :
    calc_sma_impl barsA 3 =
        (List.range (barsA.length - 3 + 1)).map (fun m =>
          ⟨(pnth barsA (3 - 1 + m)).ts, wsum barsA 3 m / ((3 : ℕ) : ℚ)⟩) ∧
      (calc_sma_impl barsA 3).length = barsA.length - 3 + 1 ∧
      (calc_sma_impl barsA 3).head? =
        some ⟨(pnth barsA (3 - 1)).ts, closesSum barsA 3 / ((3 : ℕ) : ℚ)⟩ :=
  (claim_c10 barsA 3).2.2.2 (by norm_num) (by norm_num [barsA])

/-- Claim C3: for every valid period, the first `calc_ema_impl` output and
    the first `calc_sma_impl` output are the same point: the arithmetic mean
    of the first `period` closes, timestamped at bar `period - 1`. -/
theorem claim_c3 (data : List PricePoint) (period : ℕ) (h1 : 1 ≤ period)
    (h2 : period ≤ data.length) :
    (calc_ema_impl data period).head? =
        some ⟨(pnth data (period - 1)).ts, closesSum data period / (period : ℚ)⟩ ∧
      (calc_sma_impl data period).head? =
        some ⟨(pnth data (period - 1)).ts, closesSum data period / (period : ℚ)⟩ := by
  have hg : ¬(period = 0 ∨ data.length < period) := by omega
  rw [calc_ema_impl, calc_sma_impl, if_neg hg, if_neg hg]
  exact ⟨rfl, rfl⟩

/-- Witness for claim C3 at a concrete series and period. -/
theorem claim_c3_witness :
    (calc_ema_impl barsA 2).head? =
        some ⟨(pnth barsA (2 - 1)).ts, closesSum barsA 2 / ((2 : ℕ) : ℚ)⟩ ∧
      (calc_sma_impl barsA 2).head? =
        some ⟨(pnth barsA (2 - 1)).ts, closesSum barsA 2 / ((2 : ℕ) : ℚ)⟩ :=
  claim_c3 barsA 2 (by norm_num) (by norm_num [barsA])

theorem ite_eq_gainPart (x : ℚ) : (if 0 < x then x else 0) = gainPart x := by
  by_cases h : 0 < x
  · rw [if_pos h, gainPart, max_eq_left h.le]
  · rw [if_neg h, gainPart, max_eq_right (le_of_not_lt h)]

theorem ite_eq_lossPart (x : ℚ) : (if 0 < x then 0 else |x|) = lossPart x := by
  by_cases h : 0 < x
  · rw [if_pos h, lossPart, max_eq_right (neg_nonpos.mpr h.le)]
  · rw [if_neg h, lossPart, abs_of_nonpos (le_of_not_lt h),
      max_eq_left (neg_nonneg.mpr (le_of_not_lt h))]

theorem initFold_eq (data : List PricePoint) : ∀ (l : List ℕ) (a b : ℚ),
    l.foldl (fun (acc : ℚ × ℚ) i =>
      if 0 < changeAt data i then (acc.1 + changeAt data i, acc.2)
      else (acc.1, acc.2 + |changeAt data i|)) (a, b) =
      (a + (l.map (fun i => gainPart (changeAt data i))).sum,
       b + (l.map (fun i => lossPart (changeAt data i))).sum) := by
  intro l
  induction l with
  | nil => intro a b; simp
  | cons i is ih =>
    intro a b
    rw [List.foldl_cons, List.map_cons, List.map_cons, List.sum_cons, List.sum_cons]
    by_cases h : 0 < changeAt data i
    · rw [if_pos h, ih]
      have hg : gainPart (changeAt data i) = changeAt data i := max_eq_left h.le
      have hl : lossPart (changeAt data i) = 0 := max_eq_right (neg_nonpos.mpr h.le)
      rw [hg, hl, Prod.mk.injEq]
      constructor <;> ring
    · rw [if_neg h, ih]
      have hg : gainPart (changeAt data i) = 0 := max_eq_right (le_of_not_lt h)
      have hl : lossPart (changeAt data i) = |changeAt data i| := by
        rw [lossPart, abs_of_nonpos (le_of_not_lt h),
          max_eq_left (neg_nonneg.mpr (le_of_not_lt h))]
      rw [hg, hl, Prod.mk.injEq]
      constructor <;> ring

theorem initAvgs_eq (data : List PricePoint) (period : ℕ) :
    initAvgs data period = wilderAvgs data period 0 := by
  rw [initAvgs, initFold_eq]
  simp [wilderAvgs, initGainMean, initLossMean]

theorem rsiLoop_eq (data : List PricePoint) (period : ℕ) : ∀ n k : ℕ,
    rsiLoop data period (List.range' (period + 1 + k) n) (wilderAvgs data period k).1
        (wilderAvgs data period k).2 =
      (List.range' (k + 1) n).map (fun m =>
        ⟨(pnth data (period + m)).ts,
          rsiValue (wilderAvgs data period m).1 (wilderAvgs data period m).2⟩) := by
  intro n
  induction n with
  | zero => intro k; rfl
  | succ n ih =>
    intro k
    rw [List.range'_succ, List.range'_succ, List.map_cons]
    have hstep : rsiLoop data period ((period + 1 + k) :: List.range' (period + 1 + k + 1) n)
        (wilderAvgs data period k).1 (wilderAvgs data period k).2 =
        ⟨(pnth data (period + 1 + k)).ts,
          rsiValue
            (((wilderAvgs data period k).1 * ((period : ℚ) - 1) +
              (if 0 < changeAt data (period + 1 + k) then changeAt data (period + 1 + k) else 0)) /
              (period : ℚ))
            (((wilderAvgs data period k).2 * ((period : ℚ) - 1) +
              (if 0 < changeAt data (period + 1 + k) then 0
               else |changeAt data (period + 1 + k)|)) / (period : ℚ))⟩ ::
          rsiLoop data period (List.range' (period + 1 + k + 1) n)
            (((wilderAvgs data period k).1 * ((period : ℚ) - 1) +
              (if 0 < changeAt data (period + 1 + k) then changeAt data (period + 1 + k) else 0)) /
              (period : ℚ))
            (((wilderAvgs data period k).2 * ((period : ℚ) - 1) +
              (if 0 < changeAt data (period + 1 + k) then 0
               else |changeAt data (period + 1 + k)|)) / (period : ℚ)) := rfl
    rw [hstep, ite_eq_gainPart, ite_eq_lossPart]
    have hidx : period + 1 + k = period + k + 1 := by omega
    have hga : ((wilderAvgs data period k).1 * ((period : ℚ) - 1) +
        gainPart (changeAt data (period + 1 + k))) / (period : ℚ) =
        (wilderAvgs data period (k + 1)).1 := by
      rw [hidx]; rfl
    have hla : ((wilderAvgs data period k).2 * ((period : ℚ) - 1) +
        lossPart (changeAt data (period + 1 + k))) / (period : ℚ) =
        (wilderAvgs data period (k + 1)).2 := by
      rw [hidx]; rfl
    rw [hga, hla]
    have harg : period + 1 + k + 1 = period + 1 + (k + 1) := by omega
    rw [harg, ih (k + 1)]
    have hidx2 : period + 1 + k = period + (k + 1) := by omega
    rw [hidx2]

theorem calc_rsi_eq (data : List PricePoint) (period : ℕ) (hp : period ≠ 0)
    (hle : period + 1 ≤ data.length) :
    calc_rsi_impl data period =
      (List.range (data.length - period)).map (fun m =>
        ⟨(pnth data (period + m)).ts,
          rsiValue (wilderAvgs data period m).1 (wilderAvgs data period m).2⟩) := by
  have hg : ¬(period = 0 ∨ data.length < period + 1) := by omega
  rw [calc_rsi_impl, if_neg hg]
  have hn : data.length - period = (data.length - (period + 1)) + 1 := by omega
  rw [hn, List.range_eq_range', List.range'_succ, List.map_cons]
  refine congrArg₂ List.cons ?_ ?_
  · rw [initAvgs_eq, Nat.add_zero]
  · rw [initAvgs_eq]
    have := rsiLoop_eq data period (data.length - (period + 1)) 0
    rw [Nat.add_zero] at this
    rw [this, Nat.zero_add]

theorem wilderAvgs_nonneg (data : List PricePoint) (period : ℕ) (hp : period ≠ 0) :
    ∀ k, 0 ≤ (wilderAvgs data period k).1 ∧ 0 ≤ (wilderAvgs data period k).2 := by
  intro k
  induction k with
  | zero =>
    constructor
    · refine div_nonneg (List.sum_nonneg ?_) (Nat.cast_nonneg _)
      intro x hx
      obtain ⟨i, _, rfl⟩ := List.mem_map.1 hx
      exact le_max_right _ _
    · refine div_nonneg (List.sum_nonneg ?_) (Nat.cast_nonneg _)
      intro x hx
      obtain ⟨i, _, rfl⟩ := List.mem_map.1 hx
      exact le_max_right _ _
  | succ k ih =>
    have hper : (1 : ℚ) ≤ (period : ℚ) := by
      exact_mod_cast Nat.one_le_iff_ne_zero.mpr hp
    constructor
    · exact div_nonneg
        (add_nonneg (mul_nonneg ih.1 (by linarith)) (le_max_right _ _))
        (by linarith)
    · exact div_nonneg
        (add_nonneg (mul_nonneg ih.2 (by linarith)) (le_max_right _ _))
        (by linarith)

theorem rsiValue_bounds (g l : ℚ) (hg : 0 ≤ g) (hl : 0 ≤ l) :
    0 ≤ rsiValue g l ∧ rsiValue g l ≤ 100 := by
  rw [rsiValue]
  by_cases h1 : l = 0
  · rw [if_pos h1]; norm_num
  · rw [if_neg h1]
    by_cases h2 : g = 0
    · rw [if_pos h2]; norm_num
    · rw [if_neg h2]
      have hl0 : 0 < l := lt_of_le_of_ne hl (Ne.symm h1)
      have hg0 : 0 < g := lt_of_le_of_ne hg (Ne.symm h2)
      have hrs : 0 < g / l := div_pos hg0 hl0
      have h1p : (0 : ℚ) < 1 + g / l := by linarith
      have hq1 : 0 < 100 / (1 + g / l) := by positivity
      have hq2 : 100 / (1 + g / l) ≤ 100 := by
        rw [div_le_iff₀ h1p]
        nlinarith
      constructor <;> linarith

/-- Claim C4: every value emitted by `calc_rsi_impl`, for any bar sequence
    and any period, lies in the closed interval `[0, 100]`. -/
theorem claim_c4 (data : List PricePoint) (period : ℕ) (p : IndicatorPoint)
    (hp : p ∈ calc_rsi_impl data period) : 0 ≤ p.value ∧ p.value ≤ 100 := by
  by_cases hg : period = 0 ∨ data.length < period + 1
  · rw [calc_rsi_impl, if_pos hg] at hp
    cases hp
  · push_neg at hg
    rw [calc_rsi_eq data period hg.1 (by omega)] at hp
    obtain ⟨m, _, rfl⟩ := List.mem_map.1 hp
    have hnn := wilderAvgs_nonneg data period hg.1 m
    exact rsiValue_bounds _ _ hnn.1 hnn.2

/-- Witness for claim C4: a concrete output point of `calc_rsi_impl`. -/
theorem claim_c4_witness :
    (⟨2, 100⟩ : IndicatorPoint) ∈ calc_rsi_impl barsA 1 ∧
      0 ≤ (⟨2, 100⟩ : IndicatorPoint).value ∧ (⟨2, 100⟩ : IndicatorPoint).value ≤ 100 := by
  have h1 : List.range' 1 1 = [1] := rfl
  have h2 : List.range' 2 2 = [2, 3] := rfl
  have hmem : (⟨2, 100⟩ : IndicatorPoint) ∈ calc_rsi_impl barsA 1 := by
    norm_num [calc_rsi_impl, barsA, initAvgs, rsiValue, rsiLoop, changeAt, pnth, h1, h2]
  exact ⟨hmem, (claim_c4 barsA 1 ⟨2, 100⟩ hmem).1, (claim_c4 barsA 1 ⟨2, 100⟩ hmem).2⟩

/-- Claim C5: every RSI output value equals `rsiPolicy` (the spec's
    zero-division decision, `avg_loss = 0` checked first and yielding 100 —
    in particular a fully flat window, where both averages are 0, yields
    100 — then `avg_gain = 0` yielding 0, else `100 - 100/(1 + rs)`)
    applied to the average gain/loss pair in force at that bar; the first
    output point carries the timestamp of the bar at index `period`. -/
theorem claim_c5 (data : List PricePoint) (period : ℕ) (h1 : period ≠ 0)
    (h2 : period + 1 ≤ data.length) :
    (∀ m : ℕ, m < data.length - period →
      (calc_rsi_impl data period)[m]? =
        some ⟨(pnth data (period + m)).ts,
          rsiPolicy (wilderAvgs data period m).1 (wilderAvgs data period m).2⟩) ∧
      rsiPolicy 0 0 = 100 ∧
      (calc_rsi_impl data period).head? =
        some ⟨(pnth data period).ts,
          rsiPolicy (wilderAvgs data period 0).1 (wilderAvgs data period 0).2⟩ := by
  have hchar := calc_rsi_eq data period h1 h2
  have hmain : ∀ m : ℕ, m < data.length - period →
      (calc_rsi_impl data period)[m]? =
        some ⟨(pnth data (period + m)).ts,
          rsiPolicy (wilderAvgs data period m).1 (wilderAvgs data period m).2⟩ := by
    intro m hm
    rw [hchar, List.getElem?_map, List.getElem?_range hm]
    rfl
  refine ⟨hmain, by norm_num [rsiPolicy], ?_⟩
  have h0 := hmain 0 (by omega)
  rw [List.head?_eq_getElem?, h0, Nat.add_zero]

/-- Witness for claim C5 at a concrete series and period. -/
theorem claim_c5_witness :
    (∀ m : ℕ, m < barsA.length - 1 →
      (calc_rsi_impl barsA 1)[m]? =
        some ⟨(pnth barsA (1 + m)).ts,
          rsiPolicy (wilderAvgs barsA 1 m).1 (wilderAvgs barsA 1 m).2⟩) ∧
      rsiPolicy 0 0 = 100 ∧
      (calc_rsi_impl barsA 1).head? =
        some ⟨(pnth barsA 1).ts,
          rsiPolicy (wilderAvgs barsA 1 0).1 (wilderAvgs barsA 1 0).2⟩ :=
  claim_c5 barsA 1 (by norm_num) (by norm_num [barsA])

/-- Claim C6: under the guard `period ≥ 1` and `len ≥ period + 1`, the
    seeded averages are the means of the positive / negative parts of the
    first `period` close-to-close transitions; every later pair follows
    Wilder's recurrence `(avg*(period-1) + part_i) / period` on the current
    transition; the gain part and loss part of a transition are never both
    nonzero; and the output has one point per bar from index `period`
    through the end of the sequence. -/
theorem claim_c6 (data : List PricePoint) (period : ℕ) (h1 : period ≠ 0)
    (h2 : period + 1 ≤ data.length) :
    initAvgs data period =
        (((List.range' 1 period).map (fun i => gainPart (changeAt data i))).sum / (period : ℚ),
         ((List.range' 1 period).map (fun i => lossPart (changeAt data i))).sum / (period : ℚ)) ∧
      (∀ k, wilderAvgs data period (k + 1) =
        (((wilderAvgs data period k).1 * ((period : ℚ) - 1) +
            gainPart (changeAt data (period + k + 1))) / (period : ℚ),
         ((wilderAvgs data period k).2 * ((period : ℚ) - 1) +
            lossPart (changeAt data (period + k + 1))) / (period : ℚ))) ∧
      (∀ i, gainPart (changeAt data i) = 0 ∨ lossPart (changeAt data i) = 0) ∧
      calc_rsi_impl data period =
        (List.range (data.length - period)).map (fun m =>
          ⟨(pnth data (period + m)).ts,
            rsiValue (wilderAvgs data period m).1 (wilderAvgs data period m).2⟩) ∧
      (calc_rsi_impl data period).length = data.length - period := by
  refine ⟨?_, fun k => rfl, ?_, calc_rsi_eq data period h1 h2, ?_⟩
  · rw [initAvgs_eq]
    rfl
  · intro i
    by_cases h : 0 < changeAt data i
    · right
      exact max_eq_right (neg_nonpos.mpr h.le)
    · left
      exact max_eq_right (le_of_not_lt h)
  · rw [calc_rsi_eq data period h1 h2, List.length_map, List.length_range]

/-- Witness for claim C6 at a concrete series and period. -/
theorem claim_c6_witness :
    initAvgs barsA 1 =
        (((List.range' 1 1).map (fun i => gainPart (changeAt barsA i))).sum / ((1 : ℕ) : ℚ),
         ((List.range' 1 1).map (fun i => lossPart (changeAt barsA i))).sum / ((1 : ℕ) : ℚ)) ∧
      (∀ k, wilderAvgs barsA 1 (k + 1) =
        (((wilderAvgs barsA 1 k).1 * (((1 : ℕ) : ℚ) - 1) +
            gainPart (changeAt barsA (1 + k + 1))) / ((1 : ℕ) : ℚ),
         ((wilderAvgs barsA 1 k).2 * (((1 : ℕ) : ℚ) - 1) +
            lossPart (changeAt barsA (1 + k + 1))) / ((1 : ℕ) : ℚ))) ∧
      (∀ i, gainPart (changeAt barsA i) = 0 ∨ lossPart (changeAt barsA i) = 0) ∧
      calc_rsi_impl barsA 1 =
        (List.range (barsA.length - 1)).map (fun m =>
          ⟨(pnth barsA (1 + m)).ts,
            rsiValue (wilderAvgs barsA 1 m).1 (wilderAvgs barsA 1 m).2⟩) ∧
      (calc_rsi_impl barsA 1).length = barsA.length - 1 :=
  claim_c6 barsA 1 (by norm_num) (by norm_num [barsA])

theorem lttbIndices_length (data : List DataPoint) (bs : ℚ) (len : ℕ) :
    ∀ (l : List ℕ) (prev : ℕ), (lttbIndices data bs len l prev).length = l.length := by
  intro l
  induction l with
  | nil => intro prev; rfl
  | cons i is ih =>
    intro prev
    have hstep : lttbIndices data bs len (i :: is) prev =
        lttbSelect data bs len prev i ::
          lttbIndices data bs len is (lttbSelect data bs len prev i) := rfl
    rw [hstep, List.length_cons, ih, List.length_cons]

theorem head?_eq_dnth (data : List DataPoint) (h : data ≠ []) :
    data.head? = some (dnth data 0) := by
  cases data with
  | nil => exact absurd rfl h
  | cons a l => rfl

theorem getLast?_eq_dnth (data : List DataPoint) (h : data ≠ []) :
    data.getLast? = some (dnth data (data.length - 1)) := by
  have hlt : data.length - 1 < data.length := by
    cases data with
    | nil => exact absurd rfl h
    | cons a l => simp
  rw [List.getLast?_eq_getElem?, List.getElem?_eq_getElem hlt]
  simp only [dnth]
  rw [List.getD_eq_getElem data ⟨0, 0⟩ hlt]

/-- Claim C7: `lttb_downsample_impl` of an empty series is empty; when
    `threshold < 3` or `len ≤ threshold` the input is returned unchanged;
    otherwise the output has exactly `threshold` elements and retains the
    first and last input samples. -/
theorem claim_c7 (data : List DataPoint) (threshold : ℕ) :
    (data = [] → lttb_downsample_impl data threshold = []) ∧
      (threshold < 3 ∨ data.length ≤ threshold → lttb_downsample_impl data threshold = data) ∧
      (3 ≤ threshold → threshold < data.length →
        (lttb_downsample_impl data threshold).length = threshold ∧
          (lttb_downsample_impl data threshold).head? = data.head? ∧
          (lttb_downsample_impl data threshold).getLast? = data.getLast?) := by
  refine ⟨?_, ?_, ?_⟩
  · intro h
    rw [h]
    rfl
  · intro h
    by_cases hnil : data.length = 0
    · rw [lttb_downsample_impl, if_pos hnil]
      exact (List.length_eq_zero.mp hnil).symm
    · rw [lttb_downsample_impl, if_neg hnil, if_pos h]
  · intro h3 hlt
    have hnil : ¬data.length = 0 := by omega
    have hne : data ≠ [] := by
      intro hh
      rw [hh] at hnil
      exact hnil rfl
    have hg : ¬(threshold < 3 ∨ data.length ≤ threshold) := by omega
    rw [lttb_downsample_impl, if_neg hnil, if_neg hg]
    refine ⟨?_, ?_, ?_⟩
    · rw [List.length_cons, List.length_append, List.length_map,
        lttbIndices_length, List.length_range, List.length_singleton]
      omega
    · rw [head?_eq_dnth data hne]
      rfl
    · rw [getLast?_eq_dnth data hne, ← List.cons_append, List.getLast?_concat]

/-- Witness for claim C7: the empty, pass-through, and reducing cases at
    concrete inputs. -/
theorem claim_c7_witness :
    lttb_downsample_impl [] 5 = [] ∧
      lttb_downsample_impl ptsA 10 = ptsA ∧
      (lttb_downsample_impl ptsA 3).length = 3 ∧
      (lttb_downsample_impl ptsA 3).head? = ptsA.head? ∧
      (lttb_downsample_impl ptsA 3).getLast? = ptsA.getLast? :=
  ⟨(claim_c7 [] 5).1 rfl, (claim_c7 ptsA 10).2.1 (by norm_num [ptsA]),
    ((claim_c7 ptsA 3).2.2 (by norm_num) (by norm_num [ptsA])).1,
    ((claim_c7 ptsA 3).2.2 (by norm_num) (by norm_num [ptsA])).2.1,
    ((claim_c7 ptsA 3).2.2 (by norm_num) (by norm_num [ptsA])).2.2⟩

theorem lttbBS_one_le (len threshold : ℕ) (h3 : 3 ≤ threshold) (hlt : threshold < len) :
    (1 : ℚ) ≤ lttbBS len threshold := by
  rw [lttbBS]
  have h1 : (0 : ℚ) < ((threshold - 2 : ℕ) : ℚ) := by
    exact_mod_cast (by omega : 0 < threshold - 2)
  rw [le_div_iff₀ h1, one_mul]
  exact_mod_cast (by omega : threshold - 2 ≤ len - 2)

theorem sfl_nonneg (bs : ℚ) (hbs : 0 ≤ bs) (i : ℕ) : 0 ≤ ⌊(i : ℚ) * bs⌋ :=
  Int.floor_nonneg.mpr (mul_nonneg (Nat.cast_nonneg i) hbs)

theorem sfl_succ (bs : ℚ) (hbs : 1 ≤ bs) (i : ℕ) :
    ⌊(i : ℚ) * bs⌋ + 1 ≤ ⌊((i + 1 : ℕ) : ℚ) * bs⌋ := by
  have h1 : (i : ℚ) * bs + 1 ≤ ((i + 1 : ℕ) : ℚ) * bs := by
    push_cast
    nlinarith
  calc ⌊(i : ℚ) * bs⌋ + 1 = ⌊(i : ℚ) * bs + 1⌋ := (Int.floor_add_one _).symm
    _ ≤ ⌊((i + 1 : ℕ) : ℚ) * bs⌋ := Int.floor_le_floor h1

theorem sfl_le (len threshold : ℕ) (h3 : 3 ≤ threshold) (hlt : threshold < len) (i : ℕ)
    (hi : i ≤ threshold - 2) : ⌊(i : ℚ) * lttbBS len threshold⌋ ≤ (len : ℤ) - 2 := by
  have hTpos : (0 : ℚ) < ((threshold - 2 : ℕ) : ℚ) := by
    exact_mod_cast (by omega : 0 < threshold - 2)
  have h1 : (i : ℚ) * lttbBS len threshold ≤ ((len - 2 : ℕ) : ℚ) := by
    rw [lttbBS]
    have hile : (i : ℚ) ≤ ((threshold - 2 : ℕ) : ℚ) := by exact_mod_cast hi
    calc (i : ℚ) * (((len - 2 : ℕ) : ℚ) / ((threshold - 2 : ℕ) : ℚ))
        ≤ ((threshold - 2 : ℕ) : ℚ) * (((len - 2 : ℕ) : ℚ) / ((threshold - 2 : ℕ) : ℚ)) :=
          mul_le_mul_of_nonneg_right hile
            (div_nonneg (Nat.cast_nonneg _) (Nat.cast_nonneg _))
      _ = ((len - 2 : ℕ) : ℚ) := mul_div_cancel₀ _ (ne_of_gt hTpos)
  calc ⌊(i : ℚ) * lttbBS len threshold⌋ ≤ ⌊((len - 2 : ℕ) : ℚ)⌋ := Int.floor_le_floor h1
    _ = ((len - 2 : ℕ) : ℤ) := Int.floor_natCast _
    _ ≤ (len : ℤ) - 2 := by omega

theorem bucket_bounds (len threshold : ℕ) (h3 : 3 ≤ threshold) (hlt : threshold < len)
    (i : ℕ) (hi : i < threshold - 2) :
    bucketStart (lttbBS len threshold) i < bucketEnd (lttbBS len threshold) len i ∧
      bucketEnd (lttbBS len threshold) len i ≤ len ∧
      bucketStart (lttbBS len threshold) i < len ∧
      bucketStart (lttbBS len threshold) (i + 1) < len ∧
      bucketStart (lttbBS len threshold) (i + 1) <
        bucketEnd (lttbBS len threshold) len (i + 1) := by
  have hbs1 : (1 : ℚ) ≤ lttbBS len threshold := lttbBS_one_le len threshold h3 hlt
  have hbs0 : (0 : ℚ) ≤ lttbBS len threshold := le_trans zero_le_one hbs1
  have e0 : 0 ≤ ⌊(i : ℚ) * lttbBS len threshold⌋ := sfl_nonneg _ hbs0 i
  have e0b : 0 ≤ ⌊((i + 1 : ℕ) : ℚ) * lttbBS len threshold⌋ := sfl_nonneg _ hbs0 (i + 1)
  have e0c : 0 ≤ ⌊((i + 1 + 1 : ℕ) : ℚ) * lttbBS len threshold⌋ := sfl_nonneg _ hbs0 (i + 1 + 1)
  have e1 : ⌊(i : ℚ) * lttbBS len threshold⌋ + 1 ≤ ⌊((i + 1 : ℕ) : ℚ) * lttbBS len threshold⌋ :=
    sfl_succ _ hbs1 i
  have e2 : ⌊((i + 1 : ℕ) : ℚ) * lttbBS len threshold⌋ + 1 ≤
      ⌊((i + 1 + 1 : ℕ) : ℚ) * lttbBS len threshold⌋ := sfl_succ _ hbs1 (i + 1)
  have e3 : ⌊((i + 1 : ℕ) : ℚ) * lttbBS len threshold⌋ ≤ (len : ℤ) - 2 :=
    sfl_le len threshold h3 hlt (i + 1) (by omega)
  have hs0 : bucketStart (lttbBS len threshold) i =
      (⌊(i : ℚ) * lttbBS len threshold⌋ + 1).toNat := by
    rw [bucketStart, Int.floor_add_one]
  have hs1 : bucketStart (lttbBS len threshold) (i + 1) =
      (⌊((i + 1 : ℕ) : ℚ) * lttbBS len threshold⌋ + 1).toNat := by
    rw [bucketStart, Int.floor_add_one]
  have hs2 : bucketStart (lttbBS len threshold) (i + 1 + 1) =
      (⌊((i + 1 + 1 : ℕ) : ℚ) * lttbBS len threshold⌋ + 1).toNat := by
    rw [bucketStart, Int.floor_add_one]
  rw [bucketEnd, bucketEnd, hs0, hs1, hs2]
  omega

theorem selectLoop_spec (f : ℕ → ℚ) :
    ∀ (n : ℕ) (s : ℕ) (a : ℚ) (m : ℕ),
      (selectLoop f (List.range' s n) (a, m) = (a, m) ∧
        ∀ j, s ≤ j → j < s + n → f j ≤ a) ∨
      ((selectLoop f (List.range' s n) (a, m)).1 =
          f (selectLoop f (List.range' s n) (a, m)).2 ∧
        s ≤ (selectLoop f (List.range' s n) (a, m)).2 ∧
        (selectLoop f (List.range' s n) (a, m)).2 < s + n ∧
        a < (selectLoop f (List.range' s n) (a, m)).1 ∧
        (∀ j, s ≤ j → j < s + n → f j ≤ (selectLoop f (List.range' s n) (a, m)).1) ∧
        (∀ j, s ≤ j → j < (selectLoop f (List.range' s n) (a, m)).2 →
          f j < (selectLoop f (List.range' s n) (a, m)).1)) := by
  intro n
  induction n with
  | zero =>
    intro s a m
    left
    exact ⟨rfl, fun j h1 h2 => absurd h2 (by omega)⟩
  | succ n ih =>
    intro s a m
    rw [List.range'_succ]
    by_cases h : a < f s
    · have hstep : selectLoop f (s :: List.range' (s + 1) n) (a, m) =
          selectLoop f (List.range' (s + 1) n) (f s, s) := by
        simp [selectLoop, h]
      rw [hstep]
      rcases ih (s + 1) (f s) s with ⟨heq, hall⟩ | ⟨hfx, hlo, hhi, hgt, hmax, hfirst⟩
      · right
        rw [heq]
        refine ⟨rfl, le_refl s, by omega, h, ?_, ?_⟩
        · intro j h1 h2
          by_cases hj : j = s
          · subst hj
            exact le_refl _
          · exact hall j (by omega) (by omega)
        · intro j h1 h2
          exact absurd h2 (by omega)
      · right
        refine ⟨hfx, by omega, by omega, lt_trans h hgt, ?_, ?_⟩
        · intro j h1 h2
          by_cases hj : j = s
          · subst hj
            exact le_of_lt hgt
          · exact hmax j (by omega) (by omega)
        · intro j h1 h2
          by_cases hj : j = s
          · subst hj
            exact hgt
          · exact hfirst j (by omega) h2
    · have hstep : selectLoop f (s :: List.range' (s + 1) n) (a, m) =
          selectLoop f (List.range' (s + 1) n) (a, m) := by
        simp [selectLoop, h]
      rw [hstep]
      rcases ih (s + 1) a m with ⟨heq, hall⟩ | ⟨hfx, hlo, hhi, hgt, hmax, hfirst⟩
      · left
        refine ⟨heq, ?_⟩
        intro j h1 h2
        by_cases hj : j = s
        · subst hj
          exact le_of_not_lt h
        · exact hall j (by omega) (by omega)
      · right
        have hfs : f s ≤ a := le_of_not_lt h
        refine ⟨hfx, by omega, by omega, hgt, ?_, ?_⟩
        · intro j h1 h2
          by_cases hj : j = s
          · subst hj
            exact le_of_lt (lt_of_le_of_lt hfs hgt)
          · exact hmax j (by omega) (by omega)
        · intro j h1 h2
          by_cases hj : j = s
          · subst hj
            exact lt_of_le_of_lt hfs hgt
          · exact hfirst j (by omega) h2

theorem areaAt_nonneg (data : List DataPoint) (prev : ℕ) (aTs aVal : ℚ) (j : ℕ) :
    0 ≤ areaAt data prev aTs aVal j := abs_nonneg _

theorem lttbSelect_spec (data : List DataPoint) (len threshold : ℕ) (h3 : 3 ≤ threshold)
    (hlt : threshold < len) (i prev : ℕ) (hi : i < threshold - 2) :
    bucketStart (lttbBS len threshold) i ≤ lttbSelect data (lttbBS len threshold) len prev i ∧
      lttbSelect data (lttbBS len threshold) len prev i <
        bucketEnd (lttbBS len threshold) len i ∧
      (∀ j, bucketStart (lttbBS len threshold) i ≤ j →
        j < bucketEnd (lttbBS len threshold) len i →
        areaAt data prev (centroidTs data (lttbBS len threshold) len i)
            (centroidVal data (lttbBS len threshold) len i) j ≤
          areaAt data prev (centroidTs data (lttbBS len threshold) len i)
            (centroidVal data (lttbBS len threshold) len i)
            (lttbSelect data (lttbBS len threshold) len prev i)) ∧
      (∀ j, bucketStart (lttbBS len threshold) i ≤ j →
        j < lttbSelect data (lttbBS len threshold) len prev i →
        areaAt data prev (centroidTs data (lttbBS len threshold) len i)
            (centroidVal data (lttbBS len threshold) len i) j <
          areaAt data prev (centroidTs data (lttbBS len threshold) len i)
            (centroidVal data (lttbBS len threshold) len i)
            (lttbSelect data (lttbBS len threshold) len prev i)) := by
  obtain ⟨hb1, hb2, hb3, hb4, hb5⟩ := bucket_bounds len threshold h3 hlt i hi
  have hmin : min (bucketEnd (lttbBS len threshold) len i) len =
      bucketEnd (lttbBS len threshold) len i := min_eq_left hb2
  have hsel : lttbSelect data (lttbBS len threshold) len prev i =
      (selectLoop
        (areaAt data prev (centroidTs data (lttbBS len threshold) len i)
          (centroidVal data (lttbBS len threshold) len i))
        (List.range' (bucketStart (lttbBS len threshold) i)
          (min (bucketEnd (lttbBS len threshold) len i) len -
            bucketStart (lttbBS len threshold) i))
        (-1, bucketStart (lttbBS len threshold) i)).2 := rfl
  rw [hmin] at hsel
  have hspan : bucketStart (lttbBS len threshold) i +
      (bucketEnd (lttbBS len threshold) len i - bucketStart (lttbBS len threshold) i) =
      bucketEnd (lttbBS len threshold) len i := by omega
  rcases selectLoop_spec
      (areaAt data prev (centroidTs data (lttbBS len threshold) len i)
        (centroidVal data (lttbBS len threshold) len i))
      (bucketEnd (lttbBS len threshold) len i - bucketStart (lttbBS len threshold) i)
      (bucketStart (lttbBS len threshold) i) (-1) (bucketStart (lttbBS len threshold) i) with
    hcase | hcase
  · exfalso
    have h0 := hcase.2 (bucketStart (lttbBS len threshold) i) (le_refl _) (by omega)
    have h1 := areaAt_nonneg data prev (centroidTs data (lttbBS len threshold) len i)
      (centroidVal data (lttbBS len threshold) len i) (bucketStart (lttbBS len threshold) i)
    linarith
  · obtain ⟨hfx, hlo, hhi, hgt, hmax, hfirst⟩ := hcase
    rw [← hsel] at hfx hlo hhi hfirst
    rw [hspan] at hhi
    rw [hfx] at hmax hfirst
    refine ⟨hlo, hhi, ?_, hfirst⟩
    intro j h1 h2
    exact hmax j h1 (by omega)

theorem areaAt_eq_crossArea (data : List DataPoint) (prev : ℕ) (aTs aVal : ℚ) (j : ℕ) :
    areaAt data prev aTs aVal j = crossArea (ptOf data prev) (ptOf data j) (aTs, aVal) := by
  rw [areaAt, crossArea, ptOf, ptOf]
  congr 1
  ring

theorem lttbIndices_chain (data : List DataPoint) (bs : ℚ) (len : ℕ) :
    ∀ n k, lttbIndices data bs len (List.range' (k + 1) n) (selChain data bs len k) =
      (List.range' (k + 1) n).map (selChain data bs len) := by
  intro n
  induction n with
  | zero => intro k; rfl
  | succ n ih =>
    intro k
    rw [List.range'_succ, List.map_cons]
    have hstep : lttbIndices data bs len ((k + 1) :: List.range' (k + 1 + 1) n)
        (selChain data bs len k) =
        lttbSelect data bs len (selChain data bs len k) (k + 1) ::
          lttbIndices data bs len (List.range' (k + 1 + 1) n)
            (lttbSelect data bs len (selChain data bs len k) (k + 1)) := rfl
    have hchain : lttbSelect data bs len (selChain data bs len k) (k + 1) =
        selChain data bs len (k + 1) := rfl
    rw [hstep, hchain, ih (k + 1)]

theorem lttb_chain_eq (data : List DataPoint) (threshold : ℕ) (h3 : 3 ≤ threshold)
    (hlt : threshold < data.length) :
    lttb_downsample_impl data threshold =
      dnth data 0 ::
        ((List.range (threshold - 2)).map (fun k =>
            dnth data (selChain data (lttbBS data.length threshold) data.length k)) ++
          [dnth data (data.length - 1)]) := by
  have hnil : ¬data.length = 0 := by omega
  have hg : ¬(threshold < 3 ∨ data.length ≤ threshold) := by omega
  rw [lttb_downsample_impl, if_neg hnil, if_neg hg]
  refine congrArg₂ List.cons rfl (congrArg₂ (fun a b => a ++ b) ?_ rfl)
  obtain ⟨n, hn⟩ : ∃ n, threshold - 2 = n + 1 := ⟨threshold - 3, by omega⟩
  rw [hn, List.range_eq_range', List.range'_succ]
  have hstep : lttbIndices data (lttbBS data.length threshold) data.length
      (0 :: List.range' (0 + 1) n) 0 =
      lttbSelect data (lttbBS data.length threshold) data.length 0 0 ::
        lttbIndices data (lttbBS data.length threshold) data.length (List.range' (0 + 1) n)
          (lttbSelect data (lttbBS data.length threshold) data.length 0 0) := rfl
  have hsel0 : lttbSelect data (lttbBS data.length threshold) data.length 0 0 =
      selChain data (lttbBS data.length threshold) data.length 0 := rfl
  rw [hstep, hsel0, lttbIndices_chain data (lttbBS data.length threshold) data.length n 0,
    List.map_cons, List.map_cons, List.map_map]
  rfl

/-- Claim C8: in the reducing case, for every interior bucket `i` (and any
    anchor index `prev`): the code's area expression is exactly the 2D
    cross-product triangle-area magnitude against the anchor point and the
    next bucket's centroid; the next bucket is nonempty and the centroid is
    the true arithmetic mean of its points; the selected index lies in the
    bucket, its area is maximal there, every earlier index in the bucket
    has strictly smaller area (so ties resolve to the first index in scan
    order); and the full output is the chain in which each bucket's
    selection becomes the anchor of the next bucket. -/
theorem claim_c8 (data : List DataPoint) (threshold : ℕ) (h3 : 3 ≤ threshold)
    (hlt : threshold < data.length) :
    (∀ i prev, i < threshold - 2 →
      (∀ j, areaAt data prev (centroidTs data (lttbBS data.length threshold) data.length i)
          (centroidVal data (lttbBS data.length threshold) data.length i) j =
        crossArea (ptOf data prev) (ptOf data j)
          (centroidTs data (lttbBS data.length threshold) data.length i,
            centroidVal data (lttbBS data.length threshold) data.length i)) ∧
        0 < bucketEnd (lttbBS data.length threshold) data.length (i + 1) -
            bucketStart (lttbBS data.length threshold) (i + 1) ∧
        centroidTs data (lttbBS data.length threshold) data.length i =
          sumTs data (bucketStart (lttbBS data.length threshold) (i + 1))
              (bucketEnd (lttbBS data.length threshold) data.length (i + 1) -
                bucketStart (lttbBS data.length threshold) (i + 1)) /
            ((bucketEnd (lttbBS data.length threshold) data.length (i + 1) -
                bucketStart (lttbBS data.length threshold) (i + 1) : ℕ) : ℚ) ∧
        centroidVal data (lttbBS data.length threshold) data.length i =
          sumVal data (bucketStart (lttbBS data.length threshold) (i + 1))
              (bucketEnd (lttbBS data.length threshold) data.length (i + 1) -
                bucketStart (lttbBS data.length threshold) (i + 1)) /
            ((bucketEnd (lttbBS data.length threshold) data.length (i + 1) -
                bucketStart (lttbBS data.length threshold) (i + 1) : ℕ) : ℚ) ∧
        bucketStart (lttbBS data.length threshold) i ≤
          lttbSelect data (lttbBS data.length threshold) data.length prev i ∧
        lttbSelect data (lttbBS data.length threshold) data.length prev i <
          bucketEnd (lttbBS data.length threshold) data.length i ∧
        (∀ j, bucketStart (lttbBS data.length threshold) i ≤ j →
          j < bucketEnd (lttbBS data.length threshold) data.length i →
          areaAt data prev (centroidTs data (lttbBS data.length threshold) data.length i)
              (centroidVal data (lttbBS data.length threshold) data.length i) j ≤
            areaAt data prev (centroidTs data (lttbBS data.length threshold) data.length i)
              (centroidVal data (lttbBS data.length threshold) data.length i)
              (lttbSelect data (lttbBS data.length threshold) data.length prev i)) ∧
        (∀ j, bucketStart (lttbBS data.length threshold) i ≤ j →
          j < lttbSelect data (lttbBS data.length threshold) data.length prev i →
          areaAt data prev (centroidTs data (lttbBS data.length threshold) data.length i)
              (centroidVal data (lttbBS data.length threshold) data.length i) j <
            areaAt data prev (centroidTs data (lttbBS data.length threshold) data.length i)
              (centroidVal data (lttbBS data.length threshold) data.length i)
              (lttbSelect data (lttbBS data.length threshold) data.length prev i))) ∧
      lttb_downsample_impl data threshold =
        dnth data 0 ::
          ((List.range (threshold - 2)).map (fun k =>
              dnth data (selChain data (lttbBS data.length threshold) data.length k)) ++
            [dnth data (data.length - 1)]) := by
  refine ⟨?_, lttb_chain_eq data threshold h3 hlt⟩
  intro i prev hi
  obtain ⟨hb1, hb2, hb3, hb4, hb5⟩ := bucket_bounds data.length threshold h3 hlt i hi
  obtain ⟨hs1, hs2, hs3, hs4⟩ := lttbSelect_spec data data.length threshold h3 hlt i prev hi
  have hminE : min (bucketEnd (lttbBS data.length threshold) data.length (i + 1)) data.length =
      bucketEnd (lttbBS data.length threshold) data.length (i + 1) := by
    rw [bucketEnd]
    exact min_eq_left (min_le_right _ _)
  have hcnt : nextCount (lttbBS data.length threshold) data.length i =
      bucketEnd (lttbBS data.length threshold) data.length (i + 1) -
        bucketStart (lttbBS data.length threshold) (i + 1) := by
    rw [nextCount]
    omega
  refine ⟨fun j => areaAt_eq_crossArea data prev _ _ j, by omega, ?_, ?_, hs1, hs2, hs3, hs4⟩
  · rw [centroidTs, hminE, hcnt]
  · rw [centroidVal, hminE, hcnt]

/-- Claim C9: in the reducing case every index the algorithm reads is in
    range — bucket boundaries are within the sequence, every bucket is
    nonempty, the next-bucket boundary subtraction cannot underflow, the
    centroid divisor is positive even in the guard case, the selected index
    of every bucket is in range for any anchor, and every anchor along the
    actual selection chain is in range. -/
theorem claim_c9 (data : List DataPoint) (threshold : ℕ) (h3 : 3 ≤ threshold)
    (hlt : threshold < data.length) :
    (∀ i prev, i < threshold - 2 →
      bucketStart (lttbBS data.length threshold) i < data.length ∧
        bucketEnd (lttbBS data.length threshold) data.length i ≤ data.length ∧
        bucketStart (lttbBS data.length threshold) i <
          bucketEnd (lttbBS data.length threshold) data.length i ∧
        bucketStart (lttbBS data.length threshold) (i + 1) < data.length ∧
        bucketStart (lttbBS data.length threshold) (i + 1) ≤
          bucketEnd (lttbBS data.length threshold) data.length (i + 1) ∧
        0 < nextCount (lttbBS data.length threshold) data.length i ∧
        lttbSelect data (lttbBS data.length threshold) data.length prev i < data.length) ∧
      ∀ k, k < threshold - 2 →
        selChain data (lttbBS data.length threshold) data.length k < data.length := by
  have hmain : ∀ i prev, i < threshold - 2 →
      bucketStart (lttbBS data.length threshold) i < data.length ∧
        bucketEnd (lttbBS data.length threshold) data.length i ≤ data.length ∧
        bucketStart (lttbBS data.length threshold) i <
          bucketEnd (lttbBS data.length threshold) data.length i ∧
        bucketStart (lttbBS data.length threshold) (i + 1) < data.length ∧
        bucketStart (lttbBS data.length threshold) (i + 1) ≤
          bucketEnd (lttbBS data.length threshold) data.length (i + 1) ∧
        0 < nextCount (lttbBS data.length threshold) data.length i ∧
        lttbSelect data (lttbBS data.length threshold) data.length prev i < data.length := by
    intro i prev hi
    obtain ⟨hb1, hb2, hb3, hb4, hb5⟩ := bucket_bounds data.length threshold h3 hlt i hi
    obtain ⟨hs1, hs2, _, _⟩ := lttbSelect_spec data data.length threshold h3 hlt i prev hi
    refine ⟨hb3, hb2, hb1, hb4, by omega, ?_, by omega⟩
    rw [nextCount]
    omega
  refine ⟨hmain, ?_⟩
  intro k hk
  cases k with
  | zero => exact (hmain 0 0 hk).2.2.2.2.2.2
  | succ k =>
    exact (hmain (k + 1)
      (selChain data (lttbBS data.length threshold) data.length k) hk).2.2.2.2.2.2

/-- Witness for claim C8 at a concrete series, threshold, and bucket. -/
theorem claim_c8_witness :
    ((∀ j, areaAt ptsA 0 (centroidTs ptsA (lttbBS ptsA.length 4) ptsA.length 0)
        (centroidVal ptsA (lttbBS ptsA.length 4) ptsA.length 0) j =
      crossArea (ptOf ptsA 0) (ptOf ptsA j)
        (centroidTs ptsA (lttbBS ptsA.length 4) ptsA.length 0,
          centroidVal ptsA (lttbBS ptsA.length 4) ptsA.length 0)) ∧
      0 < bucketEnd (lttbBS ptsA.length 4) ptsA.length (0 + 1) -
          bucketStart (lttbBS ptsA.length 4) (0 + 1) ∧
      centroidTs ptsA (lttbBS ptsA.length 4) ptsA.length 0 =
        sumTs ptsA (bucketStart (lttbBS ptsA.length 4) (0 + 1))
            (bucketEnd (lttbBS ptsA.length 4) ptsA.length (0 + 1) -
              bucketStart (lttbBS ptsA.length 4) (0 + 1)) /
          ((bucketEnd (lttbBS ptsA.length 4) ptsA.length (0 + 1) -
              bucketStart (lttbBS ptsA.length 4) (0 + 1) : ℕ) : ℚ) ∧
      centroidVal ptsA (lttbBS ptsA.length 4) ptsA.length 0 =
        sumVal ptsA (bucketStart (lttbBS ptsA.length 4) (0 + 1))
            (bucketEnd (lttbBS ptsA.length 4) ptsA.length (0 + 1) -
              bucketStart (lttbBS ptsA.length 4) (0 + 1)) /
          ((bucketEnd (lttbBS ptsA.length 4) ptsA.length (0 + 1) -
              bucketStart (lttbBS ptsA.length 4) (0 + 1) : ℕ) : ℚ) ∧
      bucketStart (lttbBS ptsA.length 4) 0 ≤
        lttbSelect ptsA (lttbBS ptsA.length 4) ptsA.length 0 0 ∧
      lttbSelect ptsA (lttbBS ptsA.length 4) ptsA.length 0 0 <
        bucketEnd (lttbBS ptsA.length 4) ptsA.length 0 ∧
      (∀ j, bucketStart (lttbBS ptsA.length 4) 0 ≤ j →
        j < bucketEnd (lttbBS ptsA.length 4) ptsA.length 0 →
        areaAt ptsA 0 (centroidTs ptsA (lttbBS ptsA.length 4) ptsA.length 0)
            (centroidVal ptsA (lttbBS ptsA.length 4) ptsA.length 0) j ≤
          areaAt ptsA 0 (centroidTs ptsA (lttbBS ptsA.length 4) ptsA.length 0)
            (centroidVal ptsA (lttbBS ptsA.length 4) ptsA.length 0)
            (lttbSelect ptsA (lttbBS ptsA.length 4) ptsA.length 0 0)) ∧
      (∀ j, bucketStart (lttbBS ptsA.length 4) 0 ≤ j →
        j < lttbSelect ptsA (lttbBS ptsA.length 4) ptsA.length 0 0 →
        areaAt ptsA 0 (centroidTs ptsA (lttbBS ptsA.length 4) ptsA.length 0)
            (centroidVal ptsA (lttbBS ptsA.length 4) ptsA.length 0) j <
          areaAt ptsA 0 (centroidTs ptsA (lttbBS ptsA.length 4) ptsA.length 0)
            (centroidVal ptsA (lttbBS ptsA.length 4) ptsA.length 0)
            (lttbSelect ptsA (lttbBS ptsA.length 4) ptsA.length 0 0))) ∧
    lttb_downsample_impl ptsA 4 =
      dnth ptsA 0 ::
        ((List.range (4 - 2)).map (fun k =>
            dnth ptsA (selChain ptsA (lttbBS ptsA.length 4) ptsA.length k)) ++
          [dnth ptsA (ptsA.length - 1)]) :=
  ⟨(claim_c8 ptsA 4 (by norm_num) (by norm_num [ptsA])).1 0 0 (by norm_num),
    (claim_c8 ptsA 4 (by norm_num) (by norm_num [ptsA])).2⟩

/-- Witness for claim C9 at a concrete series, threshold, and bucket. -/
theorem claim_c9_witness :
    (bucketStart (lttbBS ptsA.length 4) 0 < ptsA.length ∧
      bucketEnd (lttbBS ptsA.length 4) ptsA.length 0 ≤ ptsA.length ∧
      bucketStart (lttbBS ptsA.length 4) 0 <
        bucketEnd (lttbBS ptsA.length 4) ptsA.length 0 ∧
      bucketStart (lttbBS ptsA.length 4) (0 + 1) < ptsA.length ∧
      bucketStart (lttbBS ptsA.length 4) (0 + 1) ≤
        bucketEnd (lttbBS ptsA.length 4) ptsA.length (0 + 1) ∧
      0 < nextCount (lttbBS ptsA.length 4) ptsA.length 0 ∧
      lttbSelect ptsA (lttbBS ptsA.length 4) ptsA.length 0 0 < ptsA.length) ∧
    selChain ptsA (lttbBS ptsA.length 4) ptsA.length 1 < ptsA.length :=
  ⟨(claim_c9 ptsA 4 (by norm_num) (by norm_num [ptsA])).1 0 0 (by norm_num),
    (claim_c9 ptsA 4 (by norm_num) (by norm_num [ptsA])).2 1 (by norm_num)⟩
